import Mathlib

/-!
Verification of the gita repository registry and command dispatcher.

Shallow embedding of `src/gita/utils.py` and `src/gita/__main__.py`.

Conventions of the embedding:
* A Python `dict` (insertion-ordered, unique keys, assignment updates a
  present key in place and otherwise appends) is modelled as an association
  list `List (String × String)` with operations `lookup`, `dictContains`,
  `dictInsert`, `dictDel` mirroring `d[k]`, `k in d`, `d[k] = v`, `del d[k]`.
* The filesystem checks `os.path.isfile`/`is_git` and `os.path.abspath`
  (which depends on the current working directory) are taken as parameters
  (`g : String → Bool`, `abspath : String → String`); everything else is
  translated from the source.
* The store file is its content, a `String`; Python's line iteration
  followed by `str.rstrip()` is modelled by splitting on `'\x0a'` and
  rstripping each piece, which agrees with the Python behaviour because
  the split-off trailing empty piece is skipped as a blank line.
* `os.path` functions (`basename`, `dirname`, `join`, `normpath`) are
  translated from CPython's `posixpath` implementations.
* Subprocess execution is modelled by the oracle `fails : String → Bool`
  telling whether the external command run in a given directory exits
  non-zero, and a dispatch produces the list of subprocess invocations
  (`Inv`) it performs, in order: `asyncio.gather` preserves task order and
  `loop.run_until_complete` is a barrier, so the retry loop's invocations
  come after all concurrent ones.
-/

namespace Gita

/-- Split a list of characters on a separator character.  Mirrors Python's
`str.split(sep)` for a one-character separator: `splitOnChar c []` is
`[[]]`, and separators at the ends produce empty pieces. -/
def splitOnChar (c : Char) : List Char → List (List Char)
  | [] => [[]]
  | x :: xs =>
    if x = c then [] :: splitOnChar c xs
    else
      match splitOnChar c xs with
      | [] => [[x]]
      | g :: gs => (x :: g) :: gs

/-- The whitespace characters stripped by Python's `str.rstrip()` (the
ASCII ones; the registry contents are ASCII paths and names). -/
def pyIsSpace (c : Char) : Bool :=
  c = ' ' || c = '\t' || c = '\x0a' || c = '\x0d' || c = '\x0b' || c = '\x0c'

/-- Python `str.rstrip()`: drop trailing whitespace. -/
def pyRstrip (s : String) : String :=
  String.mk ((s.data.reverse.dropWhile pyIsSpace).reverse)

/-- The lines of a file content (see the module docstring: equivalent to
Python's line iteration for the purposes of `get_repos`). -/
def linesOf (s : String) : List String :=
  (splitOnChar '\x0a' s.data).map String.mk

/-- `posixpath.basename`: everything after the last slash. -/
def pyBasename (s : String) : String :=
  String.mk ((splitOnChar '/' s.data).getLastD [])

/-- `posixpath.dirname`: everything up to the last slash, with trailing
slashes stripped unless the result consists only of slashes. -/
def pyDirname (s : String) : String :=
  if '/' ∈ s.data then
    let head := (List.intercalate ['/'] ((splitOnChar '/' s.data).dropLast)) ++ ['/']
    if head.all (· = '/') then String.mk head
    else String.mk ((head.reverse.dropWhile (· = '/')).reverse)
  else ""

/-- Two-argument `posixpath.join`. -/
def pyJoin (a b : String) : String :=
  if b.data.head? = some '/' then b
  else if a = "" ∨ a.data.getLast? = some '/' then a ++ b
  else a ++ "/" ++ b

/-- One step of `posixpath.normpath`'s component scan: skip empty and `.`
components, push ordinary components, and let `..` pop a previous ordinary
component (except at the start of a relative path or after another `..`). -/
def normStep (slashes : Nat) (acc : List (List Char)) (comp : List Char) : List (List Char) :=
  if comp = [] ∨ comp = ['.'] then acc
  else if comp ≠ ['.', '.'] ∨ (slashes = 0 ∧ acc = []) ∨ (acc ≠ [] ∧ acc.getLastD [] = ['.', '.']) then
    acc ++ [comp]
  else if acc ≠ [] then acc.dropLast
  else acc

/-- `posixpath.normpath`, translated from CPython. -/
def pyNormpath (p : String) : String :=
  if p = "" then "."
  else
    let slashes : Nat :=
      match p.data with
      | '/' :: '/' :: '/' :: _ => 1
      | '/' :: '/' :: _ => 2
      | '/' :: _ => 1
      | _ => 0
    let comps := (splitOnChar '/' p.data).foldl (normStep slashes) []
    let out := List.replicate slashes '/' ++ List.intercalate ['/'] comps
    if out = [] then "." else String.mk out

/-- Python's `f'\x7bs:<\x7bw\x7d\x7d'`: left-justify `s` in a field of
width `w`, padding with spaces on the right. -/
def pyLjust (s : String) (w : Nat) : String :=
  s ++ String.mk (List.replicate (w - s.length) ' ')

/-- `' '.join` of a list of strings. -/
def joinSpace : List String → String
  | [] => ""
  | [x] => x
  | x :: xs => x ++ " " ++ joinSpace xs

/-- `max` over a list of naturals (Python's `max` for nonempty input). -/
def maxNat (l : List Nat) : Nat := l.foldr max 0

/-- Lexicographic less-or-equal on code-point sequences: Python's string
comparison, used by `sorted`. -/
def lexLe : List Char → List Char → Bool
  | [], _ => true
  | _ :: _, [] => false
  | a :: as, b :: bs =>
    if a.toNat < b.toNat then true
    else if b.toNat < a.toNat then false
    else lexLe as bs

/-- Python's `s1 <= s2` on strings. -/
def strLe (a b : String) : Prop := lexLe a.data b.data = true

instance (a b : String) : Decidable (strLe a b) := by
  unfold strLe; infer_instance

/-! ## The Python dict model -/

/-- `d[k]` as an option: first binding of the key. -/
def lookup : List (String × String) → String → Option String
  | [], _ => none
  | (k, v) :: rest, key => if k = key then some v else lookup rest key

/-- `k in d`. -/
def dictContains (d : List (String × String)) (k : String) : Bool :=
  (lookup d k).isSome

/-- `d[k] = v`: update in place when the key is present, append otherwise. -/
def dictInsert : List (String × String) → String → String → List (String × String)
  | [], k, v => [(k, v)]
  | (k', v') :: rest, k, v =>
    if k' = k then (k', v) :: rest else (k', v') :: dictInsert rest k v

/-- `del d[k]`. -/
def dictDel (d : List (String × String)) (k : String) : List (String × String) :=
  d.filter (fun e => e.1 ≠ k)

/-! ## Registry: `get_repos` (load) -/

/-- Outcome of scanning one store line in `get_repos`'s loop: the line is
blank after rstrip, or it unpacks as `path,name`, or `path, name =
line.split(',')` raises `ValueError` (not exactly two fields). -/
inductive LineResult where
  | blank
  | entry (path name : String)
  | malformed
  deriving DecidableEq

/-- `line = line.rstrip(); if not line: continue; path, name = line.split(',')`. -/
def parseLine (l : String) : LineResult :=
  let s := pyRstrip l
  if s = "" then .blank
  else
    match (splitOnChar ',' s.data).map String.mk with
    | [path, name] => .entry path name
    | _ => .malformed

/-- The body of `get_repos`'s loop for one line, threading the `repos`
dict; `.error ()` models the uncaught `ValueError` from tuple unpacking.
`g` is the `is_git` filesystem check. -/
def step (g : String → Bool) (repos : List (String × String)) (l : String) :
    Except Unit (List (String × String)) :=
  match parseLine l with
  | .blank => .ok repos
  | .malformed => .error ()
  | .entry path name =>
    if g path = false then .ok repos
    else if dictContains repos name = false then .ok (dictInsert repos name path)
    else .ok (dictInsert repos (pyJoin (pyBasename (pyDirname path)) name) path)

/-- `get_repos` on the lines of the store file: fold the loop body over the
lines, starting from the empty dict. -/
def get_repos (g : String → Bool) (lines : List String) :
    Except Unit (List (String × String)) :=
  lines.foldlM (step g) []

/-! ## Persisting and mutating the store -/

/-- The data written by `write_to_repo_file`:
`''.join(f'\x7bpath\x7d,\x7bname\x7d\x0a' for name, path in repos.items())`. -/
def writeRepoFile : List (String × String) → String
  | [] => ""
  | (name, path) :: rest => path ++ "," ++ name ++ "\x0a" ++ writeRepoFile rest

/-- The dict produced by `rename_repo` before it writes: `path =
repos[repo]; del repos[repo]; repos[new_name] = path`; accessing a missing
key raises `KeyError` (`.error ()`), before anything is written. -/
def renameMapping (repos : List (String × String)) (repo new_name : String) :
    Except Unit (List (String × String)) :=
  match lookup repos repo with
  | none => .error ()
  | some path => .ok (dictInsert (dictDel repos repo) new_name path)

/-- `rename_repo`, returning the full new store content (mode `'w'`:
truncate and rewrite). -/
def rename_repo (repos : List (String × String)) (repo new_name : String) :
    Except Unit String :=
  (renameMapping repos repo new_name).map writeRepoFile

/-- The one-line summary printed by `add_repos`. -/
inductive Msg where
  | found (n : Nat)
  | noNew
  deriving DecidableEq

/-- The set of remaining candidate paths in `add_repos`:
`set(os.path.abspath(p) for p in new_paths if is_git(p)) - set(repos.values())`.
Python's set iteration order is unspecified; the model fixes one
deduplication order, and the theorems proved about `add_repos` are
insensitive to that choice. -/
def addRemaining (repos : List (String × String)) (g : String → Bool)
    (abspath : String → String) (new_paths : List String) : List String :=
  (((new_paths.filter (fun p => g p)).map abspath).dedup).filter
    (fun p => p ∉ repos.map (·.2))

/-- `add_repos`, returning the printed summary and the content appended to
the store (mode `'a+'`).  The appended dict is
`\x7bos.path.basename(os.path.normpath(path)): path for path in new_paths\x7d`:
candidates sharing a basename collapse onto one key. -/
def add_repos (repos : List (String × String)) (g : String → Bool)
    (abspath : String → String) (new_paths : List String) : Msg × String :=
  let remaining := addRemaining repos g abspath new_paths
  if remaining = [] then (.noNew, "")
  else
    (.found remaining.length,
     writeRepoFile (remaining.foldl
       (fun d p => dictInsert d (pyBasename (pyNormpath p)) p) []))

/-! ## Dispatcher: `f_git_cmd` -/

/-- A subprocess invocation performed by a dispatch: `serial` is a
synchronous `subprocess.run` with inherited stdio in the given directory,
`conc` is a concurrent `asyncio.create_subprocess_exec` with stdin
disabled and stdout/stderr captured. -/
inductive Inv where
  | serial (path : String)
  | conc (path : String)
  deriving DecidableEq

/-- `run_async`'s result: the `path` when the subprocess exits non-zero
(`fails path = true`), `None` otherwise. -/
def run_async (fails : String → Bool) (path : String) : Option String :=
  if fails path then some path else none

/-- `f_git_cmd`, as the ordered list of subprocess invocations it performs.
`repos` is the already-resolved target mapping, `cmd` is `args.cmd` (so
`cmds = ['git'] + cmd` and the root verb is `cmds[1]`), `blacklist` is
`args.async_blacklist`.  In the concurrent branch, `errors` is the
order-preserving `gather` of `run_async` results; the retry loop
(`for path in errors: if path: ...`) runs after `run_until_complete`
returns, i.e. after every concurrent task has finished, and `if path:` is
Python truthiness (skips both `None` and the empty string). -/
def f_git_cmd (repos : List (String × String)) (cmd : List String)
    (blacklist : List String) (fails : String → Bool) : List Inv :=
  let cmds := "git" :: cmd
  let paths := repos.map (·.2)
  if repos.length = 1 ∨ cmds.getD 1 "" ∈ blacklist then
    paths.map Inv.serial
  else
    let errors := paths.map (run_async fails)
    paths.map Inv.conc ++
      errors.filterMap (fun e =>
        match e with
        | some path => if path ≠ "" then some (Inv.serial path) else none
        | none => none)

/-- Whether an invocation is a synchronous, inherited-stdio one. -/
def isSerialInv : Inv → Bool
  | .serial _ => true
  | .conc _ => false

/-! ## StatusAggregator: `describe` -/

/-- `describe`: one line per repository, names sorted, each line the name
left-justified (`f'\x7bname:<\x7bname_width\x7d\x7d'`) to the maximum name
length plus one, followed by the probe outputs joined by single spaces.
The probe pipeline `info.get_info_funcs()` lives outside the dispatcher
core and is a parameter `funcs`. -/
def describe (repos : List (String × String)) (funcs : List (String → String)) :
    List String :=
  if repos = [] then []
  else
    let name_width := maxNat (repos.map (fun e => e.1.length)) + 1
    (List.insertionSort strLe (repos.map (·.1))).map (fun name =>
      let path := (lookup repos name).getD ""
      pyLjust name name_width ++ joinSpace (funcs.map (fun f => f path)))

/-- Modelled from the spec's words, for comparison with `describe` (claim
C9): a display line is "the repository name left-padded to the maximum
name width across all repositories" followed by the probe outputs
"concatenated with single-space separation".  Padding on the left, width
exactly the maximum name length. -/
def specDescribeLine (name : String) (width : Nat) (outs : List String) : String :=
  String.mk (List.replicate (width - name.length) ' ') ++ name ++ joinSpace outs

/-- The same spec sentence under the other reading of "left-padded"
(left-justified, spaces on the right), still with width the maximum name
length. -/
def specDescribeLineLjust (name : String) (width : Nat) (outs : List String) : String :=
  pyLjust name width ++ joinSpace outs

/-! ## Helper lemmas -/

theorem lookup_mem {d : List (String × String)} {k v : String}
    (h : lookup d k = some v) : (k, v) ∈ d := by
  induction d with
  | nil => simp [lookup] at h
  | cons e rest ih =>
    obtain ⟨k', v'⟩ := e
    by_cases hk : k' = k
    · subst hk
      simp [lookup] at h
      simp [h]
    · simp only [lookup, if_neg hk] at h
      exact List.mem_cons_of_mem _ (ih h)

theorem mem_dictInsert {d : List (String × String)} {k v : String}
    {pr : String × String} (h : pr ∈ dictInsert d k v) :
    pr = (k, v) ∨ pr ∈ d := by
  induction d with
  | nil => simpa [dictInsert] using h
  | cons e rest ih =>
    obtain ⟨k', v'⟩ := e
    by_cases hk : k' = k
    · subst hk
      simp only [dictInsert, if_pos rfl] at h
      rcases List.mem_cons.mp h with h | h
      · exact Or.inl h
      · exact Or.inr (List.mem_cons_of_mem _ h)
    · simp only [dictInsert, if_neg hk] at h
      rcases List.mem_cons.mp h with h | h
      · exact Or.inr (h ▸ List.mem_cons_self _ _)
      · rcases ih h with h | h
        · exact Or.inl h
        · exact Or.inr (List.mem_cons_of_mem _ h)

theorem mem_dictDel {d : List (String × String)} {k : String}
    {pr : String × String} (h : pr ∈ dictDel d k) : pr ∈ d :=
  List.mem_of_mem_filter h

theorem dictInsert_fresh {d : List (String × String)} {k : String} (v : String)
    (h : lookup d k = none) : dictInsert d k v = d ++ [(k, v)] := by
  induction d with
  | nil => rfl
  | cons e rest ih =>
    obtain ⟨k', v'⟩ := e
    by_cases hk : k' = k
    · simp [lookup, hk] at h
    · simp only [lookup, if_neg hk] at h
      simp [dictInsert, hk, ih h]

theorem lookup_append_none {d1 d2 : List (String × String)} {k : String}
    (h1 : lookup d1 k = none) (h2 : lookup d2 k = none) :
    lookup (d1 ++ d2) k = none := by
  induction d1 with
  | nil => simpa using h2
  | cons e rest ih =>
    obtain ⟨k', v'⟩ := e
    by_cases hk : k' = k
    · simp [lookup, hk] at h1
    · simp only [lookup, if_neg hk] at h1 ⊢
      exact ih h1

theorem lexLe_total (as bs : List Char) : lexLe as bs = true ∨ lexLe bs as = true := by
  induction as generalizing bs with
  | nil => exact Or.inl rfl
  | cons a as ih =>
    cases bs with
    | nil => exact Or.inr rfl
    | cons b bs =>
      rcases Nat.lt_trichotomy a.toNat b.toNat with h | h | h
      · exact Or.inl (by simp [lexLe, h])
      · have h1 : ¬ a.toNat < b.toNat := by omega
        have h2 : ¬ b.toNat < a.toNat := by omega
        rcases ih bs with hh | hh
        · exact Or.inl (by simp [lexLe, h1, h2, hh])
        · exact Or.inr (by simp [lexLe, h1, h2, hh])
      · exact Or.inr (by simp [lexLe, h])

theorem lexLe_trans {as bs cs : List Char} (h1 : lexLe as bs = true)
    (h2 : lexLe bs cs = true) : lexLe as cs = true := by
  induction as generalizing bs cs with
  | nil => rfl
  | cons a as ih =>
    cases bs with
    | nil => simp [lexLe] at h1
    | cons b bs =>
      cases cs with
      | nil => simp [lexLe] at h2
      | cons c cs =>
        by_cases hab : a.toNat < b.toNat <;> by_cases hba : b.toNat < a.toNat
        · omega
        · by_cases hbc : b.toNat < c.toNat
          · have : a.toNat < c.toNat := by omega
            simp [lexLe, this]
          · by_cases hcb : c.toNat < b.toNat
            · simp [lexLe, hbc, hcb] at h2
            · have : a.toNat < c.toNat := by omega
              simp [lexLe, this]
        · simp [lexLe, hab, hba] at h1
        · by_cases hbc : b.toNat < c.toNat
          · have : a.toNat < c.toNat := by omega
            simp [lexLe, this]
          · by_cases hcb : c.toNat < b.toNat
            · simp [lexLe, hbc, hcb] at h2
            · have hac1 : ¬ a.toNat < c.toNat := by omega
              have hac2 : ¬ c.toNat < a.toNat := by omega
              have h1' : lexLe as bs = true := by simpa [lexLe, hab, hba] using h1
              have h2' : lexLe bs cs = true := by simpa [lexLe, hbc, hcb] using h2
              simp [lexLe, hac1, hac2]
              exact ih h1' h2'

instance : IsTotal String strLe :=
  ⟨fun a b => lexLe_total a.data b.data⟩

instance : IsTrans String strLe :=
  ⟨fun _ _ _ h1 h2 => lexLe_trans h1 h2⟩

theorem splitOnChar_append_last {c : Char} {l : List Char} (h : c ∉ l) :
    splitOnChar c (l ++ [c]) = [l, []] := by
  induction l with
  | nil => simp [splitOnChar]
  | cons x xs ih =>
    have hx : ¬ x = c := fun hh => h (hh ▸ List.mem_cons_self _ _)
    have hxs : c ∉ xs := fun hh => h (List.mem_cons_of_mem _ hh)
    simp only [List.cons_append, splitOnChar, if_neg hx, List.append_eq, ih hxs]

theorem step_preserves_git {g : String → Bool} {acc acc' : List (String × String)}
    {l : String} (hacc : ∀ pr ∈ acc, g pr.2 = true)
    (hs : step g acc l = .ok acc') : ∀ pr ∈ acc', g pr.2 = true := by
  unfold step at hs
  cases hp : parseLine l with
  | blank =>
    rw [hp] at hs
    cases hs
    exact hacc
  | malformed =>
    rw [hp] at hs
    cases hs
  | entry path name =>
    rw [hp] at hs
    dsimp only at hs
    by_cases hgp : g path = false
    · rw [if_pos hgp] at hs
      cases hs
      exact hacc
    · have hgt : g path = true := by
        cases hval : g path
        · exact absurd hval hgp
        · rfl
      rw [if_neg hgp] at hs
      by_cases hc : dictContains acc name = false
      · rw [if_pos hc] at hs
        cases hs
        intro pr hpr
        rcases mem_dictInsert hpr with h | h
        · rw [h]; exact hgt
        · exact hacc pr h
      · rw [if_neg hc] at hs
        cases hs
        intro pr hpr
        rcases mem_dictInsert hpr with h | h
        · rw [h]; exact hgt
        · exact hacc pr h

theorem foldlM_step_git {g : String → Bool} :
    ∀ (lines : List String) (acc res : List (String × String)),
      (∀ pr ∈ acc, g pr.2 = true) →
      List.foldlM (step g) acc lines = .ok res → ∀ pr ∈ res, g pr.2 = true := by
  intro lines
  induction lines with
  | nil =>
    intro acc res hacc h
    cases h
    exact hacc
  | cons l ls ih =>
    intro acc res hacc h
    rw [List.foldlM_cons] at h
    cases hs : step g acc l with
    | error e =>
      rw [hs] at h
      cases h
    | ok acc' =>
      rw [hs] at h
      exact ih acc' res (step_preserves_git hacc hs) h

theorem foldlM_step_malformed {g : String → Bool} :
    ∀ (lines : List String) (acc : List (String × String)) (l : String),
      l ∈ lines → parseLine l = .malformed →
      List.foldlM (step g) acc lines = .error () := by
  intro lines
  induction lines with
  | nil =>
    intro _ _ h
    cases h
  | cons x xs ih =>
    intro acc l hl hm
    rw [List.foldlM_cons]
    rcases List.mem_cons.mp hl with h | h
    · subst h
      have hx : step g acc l = .error () := by
        unfold step
        rw [hm]
      rw [hx]
      rfl
    · cases hs : step g acc x with
      | error e =>
        cases e
        rfl
      | ok acc' =>
        exact ih acc' l h hm

theorem retry_filterMap {fails : String → Bool} :
    ∀ (paths : List String), (∀ p ∈ paths, p ≠ "") →
      (paths.map (run_async fails)).filterMap (fun e =>
        match e with
        | some path => if path ≠ "" then some (Inv.serial path) else none
        | none => none) = (paths.filter fails).map Inv.serial := by
  intro paths
  induction paths with
  | nil => intro _; rfl
  | cons p ps ih =>
    intro hp
    have hpne : p ≠ "" := hp p (List.mem_cons_self _ _)
    have hps : ∀ q ∈ ps, q ≠ "" := fun q hq => hp q (List.mem_cons_of_mem _ hq)
    cases hf : fails p with
    | true =>
      simp only [List.map_cons, List.filterMap_cons, run_async, hf, if_pos rfl,
        List.filter_cons, if_neg hpne, ih hps]
      simp [hpne]
    | false =>
      simp only [List.map_cons, List.filterMap_cons, run_async, hf,
        List.filter_cons, ih hps]
      simp

theorem foldl_dictInsert_fresh (f : String → String) :
    ∀ (l : List String) (d : List (String × String)),
      (l.map f).Nodup → (∀ p ∈ l, lookup d (f p) = none) →
      l.foldl (fun acc p => dictInsert acc (f p) p) d = d ++ l.map (fun p => (f p, p)) := by
  intro l
  induction l with
  | nil =>
    intro d _ _
    simp
  | cons p ps ih =>
    intro d hnd hlk
    simp only [List.foldl_cons, List.map_cons]
    rw [dictInsert_fresh p (hlk p (List.mem_cons_self _ _))]
    have hrest : ∀ q ∈ ps, lookup (d ++ [(f p, p)]) (f q) = none := by
      intro q hq
      have hq1 : lookup d (f q) = none := hlk q (List.mem_cons_of_mem _ hq)
      have hne : ¬ f p = f q := by
        intro hh
        exact (List.nodup_cons.mp hnd).1 (hh ▸ List.mem_map_of_mem f hq)
      have hq2 : lookup [(f p, p)] (f q) = none := by simp [lookup, hne]
      exact lookup_append_none hq1 hq2
    rw [ih (d ++ [(f p, p)]) (List.Nodup.of_cons hnd) hrest]
    simp

/-! ## Claim theorems -/

/-- C1: for a dispatch of a non-denylisted command against more than one
target, every target gets one concurrent run, the retry set is exactly the
failed targets and is acted on only after the whole concurrent phase (the
trace is the concurrent phase followed by the serial retries), and the
total number of subprocess invocations is `|R|` plus the number of
concurrent failures. -/
theorem c1_concurrent_dispatch (repos : List (String × String))
    (cmd blacklist : List String) (fails : String → Bool)
    (hn : 1 < repos.length) (hb : ("git" :: cmd).getD 1 "" ∉ blacklist)
    (hp : ∀ p ∈ repos.map (·.2), p ≠ "") :
    f_git_cmd repos cmd blacklist fails =
      (repos.map (·.2)).map Inv.conc ++
        ((repos.map (·.2)).filter fails).map Inv.serial ∧
    (f_git_cmd repos cmd blacklist fails).length =
      repos.length + ((repos.map (·.2)).filter fails).length := by
  have hcond : ¬ (repos.length = 1 ∨ ("git" :: cmd).getD 1 "" ∈ blacklist) := by
    push_neg
    exact ⟨by omega, hb⟩
  have h1 : f_git_cmd repos cmd blacklist fails =
      (repos.map (·.2)).map Inv.conc ++
        ((repos.map (·.2)).filter fails).map Inv.serial := by
    simp only [f_git_cmd, if_neg hcond]
    exact congrArg _ (retry_filterMap (repos.map (·.2)) hp)
  refine ⟨h1, ?_⟩
  rw [h1]
  simp

/-- C1 witness: two targets, `/pb` fails concurrently; three invocations,
the serial retry of `/pb` after both concurrent runs. -/
theorem c1_concurrent_dispatch_witness :
    f_git_cmd [("a", "/pa"), ("b", "/pb")] ["fetch"] ["super"] (fun p => p == "/pb") =
      [.conc "/pa", .conc "/pb", .serial "/pb"] ∧
    (f_git_cmd [("a", "/pa"), ("b", "/pb")] ["fetch"] ["super"] (fun p => p == "/pb")).length = 2 + 1 := by
  have h := c1_concurrent_dispatch [("a", "/pa"), ("b", "/pb")] ["fetch"] ["super"]
    (fun p => p == "/pb") (by decide) (by decide) (by decide)
  exact ⟨h.1.trans (by decide), h.2.trans (by decide)⟩

/-- C3: the dispatch is serial exactly when the target set has one entry
or the root verb is denylisted, and a single-target dispatch is one
synchronous run regardless of the denylist. -/
theorem c3_serial_strategy (repos : List (String × String))
    (cmd blacklist : List String) (fails : String → Bool) (h : repos ≠ []) :
    ((∀ i ∈ f_git_cmd repos cmd blacklist fails, isSerialInv i = true) ↔
      (repos.length = 1 ∨ ("git" :: cmd).getD 1 "" ∈ blacklist)) ∧
    (repos.length = 1 →
      f_git_cmd repos cmd blacklist fails = (repos.map (·.2)).map Inv.serial ∧
      (f_git_cmd repos cmd blacklist fails).length = 1) := by
  constructor
  · by_cases hc : repos.length = 1 ∨ ("git" :: cmd).getD 1 "" ∈ blacklist
    · refine ⟨fun _ => hc, fun _ => ?_⟩
      simp only [f_git_cmd, if_pos hc]
      intro i hi
      rcases List.mem_map.mp hi with ⟨p, _, rfl⟩
      rfl
    · refine ⟨fun hall => absurd ?_ hc, fun hc' => absurd hc' hc⟩
      exfalso
      obtain ⟨e, repos', rfl⟩ : ∃ e repos', repos = e :: repos' := by
        cases repos with
        | nil => exact absurd rfl h
        | cons a b => exact ⟨a, b, rfl⟩
      have hmem : Inv.conc e.2 ∈ f_git_cmd (e :: repos') cmd blacklist fails := by
        simp only [f_git_cmd, if_neg hc, List.map_cons]
        exact List.mem_append_left _ (List.mem_cons_self _ _)
      have := hall _ hmem
      simp [isSerialInv] at this
  · intro h1
    have hc : repos.length = 1 ∨ ("git" :: cmd).getD 1 "" ∈ blacklist := Or.inl h1
    refine ⟨by simp only [f_git_cmd, if_pos hc], ?_⟩
    simp only [f_git_cmd, if_pos hc]
    simp [h1]

/-- C3 witness: one target with the verb not denylisted runs exactly once,
serially. -/
theorem c3_serial_strategy_witness :
    ((∀ i ∈ f_git_cmd [("a", "/pa")] ["push"] [] (fun _ => true), isSerialInv i = true) ↔
      ([("a", "/pa")].length = 1 ∨ ("git" :: ["push"]).getD 1 "" ∈ ([] : List String))) ∧
    f_git_cmd [("a", "/pa")] ["push"] [] (fun _ => true) = [Inv.serial "/pa"] := by
  have h := c3_serial_strategy [("a", "/pa")] ["push"] [] (fun _ => true) (by decide)
  exact ⟨h.1, ((h.2 rfl).1).trans (by decide)⟩

/-- C4: `rename_repo` fails with a key error when the old name is absent
(raised before any write, leaving the store unchanged), and on a registry
with exactly `old -> /x` it rewrites the store to exactly the line
`/x,new`. -/
theorem c4_rename_semantics (repos : List (String × String)) (o n p : String) :
    (lookup repos o = none → rename_repo repos o n = .error ()) ∧
    rename_repo [(o, p)] o n = .ok (p ++ "," ++ n ++ "\x0a") := by
  constructor
  · intro h
    unfold rename_repo renameMapping
    rw [h]
    rfl
  · unfold rename_repo renameMapping
    have hl : lookup [(o, p)] o = some p := by simp [lookup]
    rw [hl]
    have hd : dictDel [(o, p)] o = [] := by simp [dictDel]
    dsimp only
    rw [hd]
    show Except.ok (writeRepoFile [(n, p)]) = _
    simp [writeRepoFile]

/-- C4 witness: a missing key errors; renaming the sole entry `old -> /x`
to `new` produces exactly the line `/x,new`. -/
theorem c4_rename_semantics_witness :
    rename_repo [("a", "/x")] "zz" "n" = .error () ∧
    rename_repo [("old", "/x")] "old" "new" = .ok ("/x" ++ "," ++ "new" ++ "\x0a") :=
  ⟨(c4_rename_semantics [("a", "/x")] "zz" "n" "/x").1 rfl,
   (c4_rename_semantics [] "old" "new" "/x").2⟩

/-- C5 counterexample: the entry `/bad,b` fails the git check, `load` drops
it from the view, and a subsequent rename performs a full rewrite from the
filtered view — the line `/bad,b` IS deleted from the store file,
contradicting the claim that no core operation deletes it. -/
theorem c5_dropped_counterexample :
    get_repos (fun q => q == "/g") ["/g,a", "/bad,b"] = .ok [("a", "/g")] ∧
    rename_repo [("a", "/g")] "a" "c" = .ok "/g,c\x0a" ∧
    "/bad,b" ∉ linesOf "/g,c\x0a" :=
  ⟨rfl, rfl, by decide⟩

/-- C5 amended: `load` silently omits entries failing the git check (every
entry of the returned mapping passes the check), but a rename rewrites the
store from that filtered mapping, so the omitted entry's line is deleted
from storage by the rewrite (the written file contains only
check-passing entries). -/
theorem c5_dropped_view (g : String → Bool) :
    (∀ lines res, get_repos g lines = .ok res → ∀ pr ∈ res, g pr.2 = true) ∧
    (∀ repos o n out, (∀ pr ∈ repos, g pr.2 = true) →
      rename_repo repos o n = .ok out →
      ∃ m, out = writeRepoFile m ∧ ∀ pr ∈ m, g pr.2 = true) := by
  constructor
  · intro lines res h
    exact foldlM_step_git lines [] res (by simp) h
  · intro repos o n out hrep h
    unfold rename_repo renameMapping at h
    cases hl : lookup repos o with
    | none =>
      rw [hl] at h
      cases h
    | some path =>
      rw [hl] at h
      refine ⟨dictInsert (dictDel repos o) n path, ?_, ?_⟩
      · cases h
        rfl
      · intro pr hpr
        rcases mem_dictInsert hpr with hh | hh
        · rw [hh]
          exact hrep (o, path) (lookup_mem hl)
        · exact hrep pr (mem_dictDel hh)

/-- C5 witness: the load-omission half applied to a concrete store with a
failing entry. -/
theorem c5_dropped_view_witness : (fun q => q == "/g") "/g" = true :=
  (c5_dropped_view (fun q => q == "/g")).1 ["/g,a", "/bad,b"] [("a", "/g")] rfl
    ("a", "/g") (by decide)

/-- C2 counterexample: two entries with the same name `b` whose paths `/x`
and `/y` sit directly under the root.  The parent directory name of `/y`
is empty, `os.path.join('', 'b') = 'b'`, so the "re-keyed" assignment
overwrites the first entry: `load` neither keeps the first entry under the
original name nor produces two distinct keys. -/
theorem c2_collision_counterexample :
    get_repos (fun q => q == "/x" || q == "/y") ["/x,b", "/y,b"] = .ok [("b", "/y")] ∧
    lookup [("b", "/y")] "b" ≠ some "/x" ∧
    [("b", "/y")].length = 1 :=
  ⟨rfl, by decide, rfl⟩

/-- C2 amended: for a store file of two colliding non-blank entries, when
the re-keyed name `<parent-directory-name>/<original-name>` differs from
the original name, `load` keeps the first-encountered entry under the
original name and re-keys the later one, producing two distinct keys
(determinism is immediate: the model of `load` is a pure function of the
file content and the git-check oracle). -/
theorem c2_collision_rekey (g : String → Bool) (l1 l2 p1 p2 n rk : String)
    (h1 : parseLine l1 = .entry p1 n) (h2 : parseLine l2 = .entry p2 n)
    (hg1 : g p1 = true) (hg2 : g p2 = true)
    (hrk : pyJoin (pyBasename (pyDirname p2)) n = rk) (hne : rk ≠ n) :
    get_repos g [l1, l2] = .ok [(n, p1), (rk, p2)] := by
  have hnr : ¬ n = rk := fun hh => hne hh.symm
  have hs1 : step g [] l1 = .ok [(n, p1)] := by
    unfold step
    rw [h1]
    dsimp only
    rw [hg1]
    simp [dictContains, lookup, dictInsert]
  have hs2 : step g [(n, p1)] l2 = .ok [(n, p1), (rk, p2)] := by
    unfold step
    rw [h2]
    dsimp only
    rw [hg2]
    simp [dictContains, lookup, dictInsert, hrk, hnr]
  have e1 : get_repos g [l1, l2] =
      (step g [] l1) >>= (fun r1 => (step g r1 l2) >>= pure) := rfl
  rw [e1, hs1]
  have e2 : ((Except.ok [(n, p1)] : Except Unit (List (String × String))) >>=
      (fun r1 => (step g r1 l2) >>= pure)) = (step g [(n, p1)] l2) >>= pure := rfl
  rw [e2, hs2]
  rfl

/-- C2 witness: `/a/b,b` then `/c/b,b` load as `b -> /a/b` and
`c/b -> /c/b`. -/
theorem c2_collision_rekey_witness :
    get_repos (fun q => q == "/a/b" || q == "/c/b") ["/a/b,b", "/c/b,b"] =
      .ok [("b", "/a/b"), ("c/b", "/c/b")] :=
  c2_collision_rekey (fun q => q == "/a/b" || q == "/c/b") "/a/b,b" "/c/b,b"
    "/a/b" "/c/b" "b" "c/b" (by decide) (by decide) (by decide) (by decide)
    (by decide) (by decide)

/-- C6 counterexample: a line with two commas makes `path, name =
line.split(',')` raise `ValueError` — `load` does treat it as a parse
error, contradicting the claim. -/
theorem c6_malformed_counterexample :
    get_repos (fun _ => true) ["/a,b,c"] = .error () := rfl

/-- C6 amended: a non-blank line that does not split into exactly two
comma-separated fields makes the whole `load` fail with the unpacking
error; the registration is therefore not lost silently — the raised error
is the signal. -/
theorem c6_malformed_error (g : String → Bool) (lines : List String) (l : String)
    (hl : l ∈ lines) (hm : parseLine l = .malformed) :
    get_repos g lines = .error () :=
  foldlM_step_malformed lines [] l hl hm

/-- C6 witness: a store with one good line and one three-field line fails
to load. -/
theorem c6_malformed_error_witness :
    get_repos (fun _ => true) ["/x,y", "/a,b,c"] = .error () :=
  c6_malformed_error (fun _ => true) ["/x,y", "/a,b,c"] "/a,b,c"
    (by decide) (by decide)

/-- C7 counterexample: two remaining candidates `/a/r` and `/b/r` share the
basename `r`; the reported count is 2 but the dict comprehension collapses
them and only one line is appended. -/
theorem c7_add_counterexample :
    add_repos [] (fun _ => true) id ["/a/r", "/b/r"] = (.found 2, "/b/r,r\x0a") ∧
    (("/b/r,r\x0a" : String).data.filter (· = '\x0a')).length = 1 ∧
    (2 : Nat) ≠ 1 :=
  ⟨rfl, by decide, by decide⟩

/-- C7 amended: when the remaining candidates have pairwise-distinct
derived names (final path segment), exactly one `path,name` record is
appended per candidate and the reported count equals the number of records
appended; when no candidate remains, the `No new repos found!` message is
printed and nothing is appended. -/
theorem c7_add_report (repos : List (String × String)) (g : String → Bool)
    (abspath : String → String) (new_paths : List String)
    (hnd : ((addRemaining repos g abspath new_paths).map
      (fun p => pyBasename (pyNormpath p))).Nodup) :
    add_repos repos g abspath new_paths =
      if addRemaining repos g abspath new_paths = [] then (Msg.noNew, "")
      else (Msg.found (addRemaining repos g abspath new_paths).length,
        writeRepoFile ((addRemaining repos g abspath new_paths).map
          (fun p => (pyBasename (pyNormpath p), p)))) := by
  simp only [add_repos]
  by_cases hr : addRemaining repos g abspath new_paths = []
  · simp [hr]
  · simp only [if_neg hr]
    have hfold := foldl_dictInsert_fresh (fun q => pyBasename (pyNormpath q))
      (addRemaining repos g abspath new_paths) [] hnd (fun q _ => rfl)
    simp only [List.nil_append] at hfold
    rw [hfold]

/-- C7 witness: two candidates with distinct basenames: two lines
appended, count 2 reported. -/
theorem c7_add_report_witness :
    add_repos [] (fun _ => true) id ["/a/r", "/b/c"] = (.found 2, "/a/r,r\x0a/b/c,c\x0a") := by
  have h := c7_add_report [] (fun _ => true) id ["/a/r", "/b/c"] (by decide)
  exact h.trans (by decide)

/-- C8: adding a repository path `p` to an empty store appends exactly one
record; loading the resulting store registers `p` once (under the final
path segment of its absolute form); and adding `p` again on that store
reports no new repos and appends nothing.  The hypotheses record that `p`
and its absolute form pass the git check and that the written line
round-trips through the line parser (its fields contain no comma, no
newline and no trailing whitespace). -/
theorem c8_add_idempotent (g : String → Bool) (abspath : String → String)
    (p apath bn : String) (hap : abspath p = apath)
    (hbn : pyBasename (pyNormpath apath) = bn)
    (hg : g p = true) (hga : g apath = true)
    (hparse : parseLine (apath ++ "," ++ bn) = .entry apath bn)
    (hnl : '\x0a' ∉ (apath ++ "," ++ bn).data) :
    add_repos [] g abspath [p] = (.found 1, apath ++ "," ++ bn ++ "\x0a") ∧
    get_repos g (linesOf (apath ++ "," ++ bn ++ "\x0a")) = .ok [(bn, apath)] ∧
    add_repos [(bn, apath)] g abspath [p] = (.noNew, "") := by
  have hrem : addRemaining [] g abspath [p] = [apath] := by
    unfold addRemaining
    simp [hg, hap]
  refine ⟨?_, ?_, ?_⟩
  · simp only [add_repos, hrem]
    simp [hbn, writeRepoFile, dictInsert]
  · have hlines : linesOf (apath ++ "," ++ bn ++ "\x0a") = [apath ++ "," ++ bn, ""] := by
      unfold linesOf
      rw [String.data_append (apath ++ "," ++ bn) "\x0a",
        show ("\x0a" : String).data = ['\x0a'] from rfl,
        splitOnChar_append_last hnl]
      rfl
    rw [hlines]
    have hs1 : step g [] (apath ++ "," ++ bn) = .ok [(bn, apath)] := by
      unfold step
      rw [hparse]
      dsimp only
      rw [hga]
      simp [dictContains, lookup, dictInsert]
    have hs2 : step g [(bn, apath)] "" = .ok [(bn, apath)] := by
      unfold step
      rw [show parseLine "" = .blank from rfl]
    have e1 : get_repos g [apath ++ "," ++ bn, ""] =
        (step g [] (apath ++ "," ++ bn)) >>= (fun r1 => (step g r1 "") >>= pure) := rfl
    rw [e1, hs1]
    have e2 : ((Except.ok [(bn, apath)] : Except Unit (List (String × String))) >>=
        (fun r1 => (step g r1 "") >>= pure)) = (step g [(bn, apath)] "") >>= pure := rfl
    rw [e2, hs2]
    rfl
  · have hremC : addRemaining [(bn, apath)] g abspath [p] = [] := by
      unfold addRemaining
      simp [hg, hap]
    simp [add_repos, hremC]

/-- C8 witness: `add(['/a/repo'])` on an empty store, then again on the
result. -/
theorem c8_add_idempotent_witness :
    add_repos [] (fun _ => true) id ["/a/repo"] =
      (.found 1, "/a/repo" ++ "," ++ "repo" ++ "\x0a") ∧
    get_repos (fun _ => true) (linesOf ("/a/repo" ++ "," ++ "repo" ++ "\x0a")) =
      .ok [("repo", "/a/repo")] ∧
    add_repos [("repo", "/a/repo")] (fun _ => true) id ["/a/repo"] = (.noNew, "") :=
  c8_add_idempotent (fun _ => true) id "/a/repo" "/a/repo" "repo" rfl (by decide)
    rfl rfl (by decide) (by decide)

/-- C9 counterexample: with one repository named `ab` and one probe
returning `X`, the code produces `"ab X"` (left-justified to the maximum
name length plus one), while the claim's formula — the name padded to the
maximum name width (2), under either reading of "left-padded" — gives
`"abX"`. -/
theorem c9_describe_counterexample :
    describe [("ab", "/p")] [fun _ => "X"] = ["ab X"] ∧
    specDescribeLine "ab" (maxNat [("ab" : String).length]) ["X"] = "abX" ∧
    specDescribeLineLjust "ab" (maxNat [("ab" : String).length]) ["X"] = "abX" ∧
    ("ab X" : String) ≠ "abX" :=
  ⟨by decide, by decide, by decide, by decide⟩

/-- C9 amended: for a nonempty registry, `describe` yields exactly one
line per repository, iterated in name-sorted order (code-point
lexicographic), each line the name left-justified — padded on the right —
to one more than the maximum name length, followed by the probe outputs
joined by single spaces. -/
theorem c9_describe_lines (repos : List (String × String))
    (funcs : List (String → String)) (h : repos ≠ []) :
    (List.insertionSort strLe (repos.map (·.1))).Perm (repos.map (·.1)) ∧
    List.Sorted strLe (List.insertionSort strLe (repos.map (·.1))) ∧
    describe repos funcs =
      (List.insertionSort strLe (repos.map (·.1))).map (fun name =>
        pyLjust name (maxNat (repos.map (fun e => e.1.length)) + 1) ++
          joinSpace (funcs.map (fun f => f ((lookup repos name).getD "")))) ∧
    (describe repos funcs).length = repos.length := by
  refine ⟨List.perm_insertionSort _ _, List.sorted_insertionSort _ _, ?_, ?_⟩
  · simp only [describe, if_neg h]
  · simp only [describe, if_neg h]
    rw [List.length_map, (List.perm_insertionSort strLe _).length_eq, List.length_map]

/-- C9 witness: a two-entry registry, sorted output, one line each. -/
theorem c9_describe_lines_witness :
    describe [("bb", "/q"), ("a", "/p")] ([] : List (String → String)) = ["a  ", "bb "] ∧
    (describe [("bb", "/q"), ("a", "/p")] ([] : List (String → String))).length = 2 := by
  have h := c9_describe_lines [("bb", "/q"), ("a", "/p")] ([] : List (String → String))
    (by decide)
  exact ⟨(h.2.2.1).trans (by decide), (h.2.2.2).trans (by decide)⟩

/-- C10 counterexample: the identical line `/x,b` appears twice; the
parent directory name of `/x` is empty, so the re-key equals `b` and the
second occurrence overwrites the first — the mapping has one key, not two
distinct keys. -/
theorem c10_dup_counterexample :
    get_repos (fun q => q == "/x") ["/x,b", "/x,b"] = .ok [("b", "/x")] ∧
    [("b", "/x")].length = 1 ∧
    (1 : Nat) ≠ 2 :=
  ⟨rfl, rfl, by decide⟩

/-- C10 amended: when the identical line `path,name` appears twice and the
re-keyed name `<parent-directory-name>/<name>` differs from `name`, `load`
returns two distinct keys both mapping to the same path — the values of
the mapping are not necessarily distinct.  Collision detection compares
names only. -/
theorem c10_dup_rekey (g : String → Bool) (l p n rk : String)
    (h : parseLine l = .entry p n) (hg : g p = true)
    (hrk : pyJoin (pyBasename (pyDirname p)) n = rk) (hne : rk ≠ n) :
    get_repos g [l, l] = .ok [(n, p), (rk, p)] ∧
    lookup [(n, p), (rk, p)] n = some p ∧
    lookup [(n, p), (rk, p)] rk = some p := by
  have hnr : ¬ n = rk := fun hh => hne hh.symm
  refine ⟨?_, by simp [lookup], by simp [lookup, hnr]⟩
  have hs1 : step g [] l = .ok [(n, p)] := by
    unfold step
    rw [h]
    dsimp only
    rw [hg]
    simp [dictContains, lookup, dictInsert]
  have hs2 : step g [(n, p)] l = .ok [(n, p), (rk, p)] := by
    unfold step
    rw [h]
    dsimp only
    rw [hg]
    simp [dictContains, lookup, dictInsert, hrk, hnr]
  have e1 : get_repos g [l, l] =
      (step g [] l) >>= (fun r1 => (step g r1 l) >>= pure) := rfl
  rw [e1, hs1]
  have e2 : ((Except.ok [(n, p)] : Except Unit (List (String × String))) >>=
      (fun r1 => (step g r1 l) >>= pure)) = (step g [(n, p)] l) >>= pure := rfl
  rw [e2, hs2]
  rfl

/-- C10 witness: `/c/b,b` twice loads as `b -> /c/b` and `c/b -> /c/b`:
two keys, one value. -/
theorem c10_dup_rekey_witness :
    get_repos (fun q => q == "/c/b") ["/c/b,b", "/c/b,b"] =
      .ok [("b", "/c/b"), ("c/b", "/c/b")] ∧
    lookup [("b", "/c/b"), ("c/b", "/c/b")] "b" = some "/c/b" ∧
    lookup [("b", "/c/b"), ("c/b", "/c/b")] "c/b" = some "/c/b" :=
  c10_dup_rekey (fun q => q == "/c/b") "/c/b,b" "/c/b" "b" "c/b" (by decide)
    (by decide) (by decide) (by decide)

end Gita
